import Mathlib

/-!
Verification of the libstrings de-duplicating string interning table
(`src/strings.c`, `include/libstrings.h`).

The balanced AVL ordered-index engine (`avl.h`) is the external collaborator
the spec places out of scope; it is modelled here as a comparator-sorted list
with first-match search, duplicate-rejecting sorted insertion, first-match
deletion and in-order traversal equal to the list itself.  C strings are
modelled as `List Nat` (byte sequences without interior NUL); a NULL `char *`
text payload is modelled as `none`.  Machine `unsigned int` counters never
approach 2^32 in any statement below, so they are modelled as `Nat`.
-/

/-- A C text payload: byte string without interior NUL. -/
abbrev Text := List Nat

/-- `strcmp`, clamped to -1/0/1 as `string_node_compare_text` does. -/
def strcmp : Text → Text → Int
  | [], [] => 0
  | [], _ :: _ => -1
  | _ :: _, [] => 1
  | a :: as, b :: bs => if a < b then -1 else if b < a then 1 else strcmp as bs

/-- The `string` struct of `libstrings.h`: reference count, id, text payload
(`none` models a NULL `char *`). -/
structure string where
  ref_cnt : Nat
  id : Nat
  text : Option Text
deriving DecidableEq, Repr

/-- The `string_result` enum. -/
inductive string_result
  | string_found
  | string_not_found
  | string_failed
deriving DecidableEq, Repr

export string_result (string_found string_not_found string_failed)

/-- The `string_key` enum selecting the index for `strings_walk`. -/
inductive string_key
  | string_id
  | string_text
deriving DecidableEq, Repr

/-- Text comparison on nullable payloads: `string_node_compare_text` returns 0
when either text pointer is NULL, else clamped `strcmp`. -/
def ctextO : Option Text → Option Text → Int
  | none, _ => 0
  | _, none => 0
  | some a, some b => strcmp a b

/-- `string_node_compare_text` on the record payloads. -/
def string_node_compare_text (a b : string) : Int :=
  ctextO a.text b.text

/-- Numeric comparison of ids, as `string_node_compare_id`. -/
def cidN (a b : Nat) : Int :=
  if a < b then -1 else if b < a then 1 else 0

/-- `string_node_compare_id` on the record payloads. -/
def string_node_compare_id (a b : string) : Int :=
  cidN a.id b.id

/-- An ordered-index comparator. -/
abbrev Cmp := string → string → Int

/-- `avl_find`: the node comparing equal to the probe, if any (first match in
ascending order). -/
def avl_find (cmp : Cmp) (t : List string) (key : string) : Option string :=
  t.find? (fun s => cmp key s == 0)

/-- Insert a node into a comparator-sorted list, before the first strictly
greater element. -/
def insertSorted (cmp : Cmp) : List string → string → List string
  | [], n => [n]
  | s :: ss, n => if cmp n s < 0 then n :: s :: ss else s :: insertSorted cmp ss n

/-- `avl_insert`: duplicate keys are rejected as failures (`none`); otherwise
the node joins the index in comparator order. -/
def avl_insert (cmp : Cmp) (t : List string) (n : string) : Option (List string) :=
  if t.any (fun s => cmp n s == 0) then none else some (insertSorted cmp t n)

/-- `avl_delete`: remove the first node comparing equal to the probe. -/
def avl_delete (cmp : Cmp) (t : List string) (key : string) : List string :=
  t.eraseP (fun s => cmp key s == 0)

/-- The `strings` struct: the running id counter and the two indices.  A table
produced by a fully successful `strings_new` (both `avl_new` calls succeed);
the construction-failure behaviour is modelled separately by `strings_new`. -/
structure strings where
  last_id : Nat
  id_root : List string
  text_root : List string
deriving DecidableEq, Repr

/-- The empty table produced by a fully successful `strings_new`. -/
def strings_empty : strings := ⟨0, [], []⟩

/-- The `strings` struct as `strings_new` actually leaves it: either AVL root
may be missing when its `avl_new` failed. -/
structure stringsRaw where
  last_id : Nat
  id_root : Option (List string)
  text_root : Option (List string)
deriving DecidableEq, Repr

/-- `strings_new`, with one Boolean allocation oracle per `malloc`/`avl_new`
call, in program order: on `malloc` failure it returns NULL; on either
`avl_new` failure the `goto exit` path returns the partially initialized
struct as is. -/
def strings_new (malloc_ok id_avl_ok text_avl_ok : Bool) : Option stringsRaw :=
  if !malloc_ok then none
  else
    let strs : stringsRaw := ⟨0, none, none⟩
    if !id_avl_ok then some strs
    else
      let strs : stringsRaw := { strs with id_root := some [] }
      if !text_avl_ok then some strs
      else some { strs with text_root := some [] }

/-- Increment a record's reference count (`++s->ref_cnt`). -/
def bumpRef (s : string) : string :=
  { s with ref_cnt := s.ref_cnt + 1 }

/-- Replace the first element matching `p` by its image under `g`: the effect
of mutating the found AVL node in place. -/
def updateFirst (p : string → Bool) (g : string → string) : List string → List string
  | [] => []
  | s :: ss => if p s then g s :: ss else s :: updateFirst p g ss

/-- `strings_add`.  The probe node copies only the caller's text (ref_cnt and
id are zeroed).  On a text-index hit the found record's count is incremented
in place and `string_found` returned.  Otherwise the probe gets ref_cnt 1 and
the current `last_id`, `last_id` is incremented, the node enters the text
index, and `string_node_dup` of it (which, via `string_node_new_with_values`,
leaves ref_cnt at 0) enters the id index.  The NULL-pointer checks on the
table and record arguments are not modelled (both are values here); a NULL
text payload is `str.text = none`. -/
def strings_add (strs : strings) (str : string) : string_result × strings :=
  let n : string := ⟨0, 0, str.text⟩
  match avl_find string_node_compare_text strs.text_root n with
  | some _ =>
      let tt := updateFirst (fun s => string_node_compare_text n s == 0) bumpRef strs.text_root
      (string_found, { strs with text_root := tt })
  | none =>
      let n1 : string := ⟨1, strs.last_id, str.text⟩
      let strs1 : strings := { strs with last_id := strs.last_id + 1 }
      match avl_insert string_node_compare_text strs1.text_root n1 with
      | none => (string_failed, strs1)
      | some ttree =>
          let strs2 : strings := { strs1 with text_root := ttree }
          let d : string := ⟨0, n1.id, n1.text⟩
          match avl_insert string_node_compare_id strs2.id_root d with
          | none => (string_failed, strs2)
          | some itree => (string_found, { strs2 with id_root := itree })

/-- `strings_remove`: find by text, capture the id, delete from both indices.
A NULL text argument is `none`. -/
def strings_remove (strs : strings) (text : Option Text) : string_result × strings :=
  match text with
  | none => (string_failed, strs)
  | some t =>
      let sn : string := ⟨0, 0, some t⟩
      match avl_find string_node_compare_text strs.text_root sn with
      | none => (string_failed, strs)
      | some fs =>
          let sn2 : string := ⟨0, fs.id, some t⟩
          (string_found,
            { strs with
                text_root := avl_delete string_node_compare_text strs.text_root sn2,
                id_root := avl_delete string_node_compare_id strs.id_root sn2 })

/-- `strings_find_by_text`: exact-match lookup against the text index. -/
def strings_find_by_text (strs : strings) (text : Option Text) : Option string :=
  match text with
  | none => none
  | some t => avl_find string_node_compare_text strs.text_root ⟨0, 0, some t⟩

/-- `strings_find_by_id`: exact-match lookup against the id index (the probe
node is zeroed except for the id). -/
def strings_find_by_id (strs : strings) (id : Nat) : Option string :=
  avl_find string_node_compare_id strs.id_root ⟨0, id, none⟩

/-- `strings_walk`: the records visited in ascending key order of the chosen
index (the model index is already that ascending sequence). -/
def strings_walk (strs : strings) (key : string_key) : List string :=
  match key with
  | string_key.string_id => strs.id_root
  | string_key.string_text => strs.text_root

/-- One step of the `strings_renumber` walk over the text index, carried out
by `renumber_action`: the text node's id is overwritten with the running
`_new_id`, a `string_node_dup` of it (ref_cnt 0) is inserted into the fresh
id index, and on successful insertion `_new_id` is incremented.  Returns the
mutated text index, the rebuilt id index and the final `_new_id`. -/
def renumber_walk : Nat → List string → List string → List string × List string × Nat
  | k, idt, [] => ([], idt, k)
  | k, idt, s :: ss =>
      match avl_insert string_node_compare_id idt ⟨0, k, s.text⟩ with
      | some idt' =>
          let r := renumber_walk (k + 1) idt' ss
          ({ s with id := k } :: r.1, r.2.1, r.2.2)
      | none =>
          let r := renumber_walk k idt ss
          ({ s with id := k } :: r.1, r.2.1, r.2.2)

/-- `strings_renumber`: discard the id index, walk the text index in ascending
text order assigning dense ids from 0, rebuild the id index from duplicates,
and set `last_id` to the final counter. -/
def strings_renumber (strs : strings) : strings :=
  let r := renumber_walk 0 [] strs.text_root
  ⟨r.2.2, r.2.1, r.1⟩

/-- Specification helper: the text index as `renumber_action` leaves it, ids
overwritten in place by the running counter. -/
def renumberText (k : Nat) : List string → List string
  | [] => []
  | s :: ss => { s with id := k } :: renumberText (k + 1) ss

/-- Specification helper: the id index `strings_renumber` rebuilds, one
`string_node_dup` (ref_cnt 0) per text-index record with dense ids from
`k`. -/
def idDups (k : Nat) : List string → List string
  | [] => []
  | s :: ss => ⟨0, k, s.text⟩ :: idDups (k + 1) ss

/-- Specification helper: intern a list of plain texts in order into a fresh
table. -/
def strings_run_add_texts (ts : List Text) : strings :=
  ts.foldl (fun T t => (strings_add T ⟨0, 0, some t⟩).2) strings_empty

/-- The (non-null) texts of the id index, in ascending id order. -/
def id_texts (strs : strings) : List Text :=
  strs.id_root.filterMap (fun s => s.text)

/-- `string_dup`: deep copy of a `string`; a record with no text payload
yields no result. -/
def string_dup (s : string) : Option string :=
  match s.text with
  | none => none
  | some _ => some s

/-- The `strings_dup` walk over the source's id index: `duper_action` deep
copies each record and re-adds it to the destination table through
`strings_add` (whose result is ignored). -/
def duper_walk : strings → List string → strings
  | acc, [] => acc
  | acc, s :: ss =>
      match string_dup s with
      | none => duper_walk acc ss
      | some nstr => duper_walk (strings_add acc nstr).2 ss

/-- `strings_dup`: a fresh destination table populated by walking the source's
id index in ascending id order. -/
def strings_dup (strs : strings) : strings :=
  duper_walk strings_empty strs.id_root

/-- A mutating table operation (the read-only finds and walks do not change
the table). -/
inductive strop
  | add (str : string)
  | remove (text : Option Text)
  | renumber

/-- Apply one mutating operation. -/
def strings_step (strs : strings) : strop → strings
  | strop.add str => (strings_add strs str).2
  | strop.remove t => (strings_remove strs t).2
  | strop.renumber => strings_renumber strs

/-- Run a sequence of mutating operations. -/
def strings_run (strs : strings) (ops : List strop) : strings :=
  ops.foldl strings_step strs

/-- Run a sequence of `strings_add` calls. -/
def strings_run_adds (strs : strings) (l : List string) : strings :=
  l.foldl (fun t str => (strings_add t str).2) strs

/-- The key data of a record: id and text (the fields the two comparators
read). -/
def skey (s : string) : Nat × Option Text := (s.id, s.text)

/-- Strict text order between records. -/
def ltText (a b : string) : Prop := string_node_compare_text a b = -1

/-- Strict id order between records. -/
def ltId (a b : string) : Prop := string_node_compare_id a b = -1

instance : DecidableRel ltText := fun a b =>
  inferInstanceAs (Decidable (string_node_compare_text a b = -1))

instance : DecidableRel ltId := fun a b =>
  inferInstanceAs (Decidable (string_node_compare_id a b = -1))

/-- A structurally recursive decision procedure for `Chain'`, so that `decide`
can evaluate the well-formedness predicate on concrete tables. -/
instance chain'Decidable {R : string → string → Prop} [DecidableRel R] :
    ∀ l : List string, Decidable (List.Chain' R l)
  | [] => isTrue List.chain'_nil
  | [a] => isTrue (List.chain'_singleton a)
  | _ :: b :: l =>
    @decidable_of_iff _ _ List.chain'_cons.symm
      (@instDecidableAnd _ _ _ (@chain'Decidable R _ (b :: l)))

/-- Well-formedness of a table: each index strictly sorted by its comparator,
both indices carrying the same multiset of (id, text) keys, every id-index
record holding the reference count 0 it was created with by
`string_node_dup`, and every id below the running counter. -/
def WF (strs : strings) : Prop :=
  List.Chain' ltText strs.text_root ∧
  List.Chain' ltId strs.id_root ∧
  (strs.id_root.map skey).Perm (strs.text_root.map skey) ∧
  (∀ s ∈ strs.id_root, s.ref_cnt = 0) ∧
  (∀ s ∈ strs.id_root, s.id < strs.last_id)

instance : DecidablePred WF := fun strs =>
  inferInstanceAs (Decidable
    (List.Chain' ltText strs.text_root ∧
     List.Chain' ltId strs.id_root ∧
     (strs.id_root.map skey).Perm (strs.text_root.map skey) ∧
     (∀ s ∈ strs.id_root, s.ref_cnt = 0) ∧
     (∀ s ∈ strs.id_root, s.id < strs.last_id)))

example : WF strings_empty := by decide

example :
    strings_add strings_empty ⟨0, 0, some [97]⟩ =
      (string_found, ⟨1, [⟨0, 0, some [97]⟩], [⟨1, 0, some [97]⟩]⟩) := by decide

/-! ### Comparator facts -/

lemma strcmp_self (a : Text) : strcmp a a = 0 := by
  induction a with
  | nil => rfl
  | cons x as ih => simp [strcmp, ih]

lemma strcmp_eq_zero_iff : ∀ {a b : Text}, strcmp a b = 0 ↔ a = b := by
  intro a
  induction a with
  | nil => intro b; cases b <;> simp [strcmp]
  | cons x as ih =>
    intro b
    cases b with
    | nil => simp [strcmp]
    | cons y bs =>
      simp only [strcmp, List.cons.injEq]
      rcases lt_trichotomy x y with h | h | h
      · rw [if_pos h]
        constructor
        · intro hc; exact absurd hc (by decide)
        · rintro ⟨rfl, -⟩; exact absurd h (lt_irrefl x)
      · subst h
        rw [if_neg (lt_irrefl x), if_neg (lt_irrefl x), ih]
        simp
      · rw [if_neg (by omega), if_pos h]
        constructor
        · intro hc; exact absurd hc (by decide)
        · rintro ⟨rfl, -⟩; exact absurd h (lt_irrefl x)

lemma strcmp_cases : ∀ (a b : Text), strcmp a b = -1 ∨ strcmp a b = 0 ∨ strcmp a b = 1 := by
  intro a
  induction a with
  | nil => intro b; cases b <;> simp [strcmp]
  | cons x as ih =>
    intro b
    cases b with
    | nil => simp [strcmp]
    | cons y bs =>
      simp only [strcmp]
      rcases lt_trichotomy x y with h | h | h
      · rw [if_pos h]; left; rfl
      · subst h; rw [if_neg (lt_irrefl x), if_neg (lt_irrefl x)]; exact ih bs
      · rw [if_neg (by omega), if_pos h]; right; right; rfl

lemma strcmp_swap : ∀ {a b : Text}, strcmp a b = 1 ↔ strcmp b a = -1 := by
  intro a
  induction a with
  | nil => intro b; cases b <;> simp [strcmp]
  | cons x as ih =>
    intro b
    cases b with
    | nil => simp [strcmp]
    | cons y bs =>
      simp only [strcmp]
      rcases lt_trichotomy x y with h | h | h
      · rw [if_pos h, if_neg (by omega : ¬ y < x), if_pos h]
        constructor <;> (intro hc; exact absurd hc (by decide))
      · subst h
        rw [if_neg (lt_irrefl x), if_neg (lt_irrefl x), if_neg (lt_irrefl x),
          if_neg (lt_irrefl x)]
        exact ih
      · rw [if_neg (by omega), if_pos h, if_pos h]
        constructor <;> (intro; rfl)

lemma strcmp_trans : ∀ {a b c : Text},
    strcmp a b = -1 → strcmp b c = -1 → strcmp a c = -1 := by
  intro a
  induction a with
  | nil =>
    intro b c h1 h2
    cases b with
    | nil => exact absurd h1 (by simp [strcmp])
    | cons y bs =>
      cases c with
      | nil => exact absurd h2 (by simp [strcmp])
      | cons z cs => rfl
  | cons x as ih =>
    intro b c h1 h2
    cases b with
    | nil => exact absurd h1 (by simp [strcmp])
    | cons y bs =>
      cases c with
      | nil => exact absurd h2 (by simp [strcmp])
      | cons z cs =>
        simp only [strcmp] at h1 h2 ⊢
        rcases lt_trichotomy x y with hxy | hxy | hxy
        · rcases lt_trichotomy y z with hyz | hyz | hyz
          · rw [if_pos (hxy.trans hyz)]
          · subst hyz; rw [if_pos hxy]
          · rw [if_neg (by omega), if_pos hyz] at h2
            exact absurd h2 (by decide)
        · subst hxy
          rw [if_neg (lt_irrefl x), if_neg (lt_irrefl x)] at h1
          rcases lt_trichotomy x z with hxz | hxz | hxz
          · rw [if_pos hxz]
          · subst hxz
            rw [if_neg (lt_irrefl x), if_neg (lt_irrefl x)] at h2 ⊢
            exact ih h1 h2
          · rw [if_neg (by omega), if_pos hxz] at h2
            exact absurd h2 (by decide)
        · rw [if_neg (by omega), if_pos hxy] at h1
          exact absurd h1 (by decide)

lemma ctextO_some_some {a b : Text} : ctextO (some a) (some b) = strcmp a b := rfl

@[simp] lemma ctextO_none_left (x : Option Text) : ctextO none x = 0 := by
  cases x <;> rfl

@[simp] lemma ctextO_none_right (x : Option Text) : ctextO x none = 0 := by
  cases x <;> rfl

lemma ctextO_zero_some {t ts : Text} : ctextO (some t) (some ts) = 0 ↔ ts = t := by
  rw [ctextO_some_some, strcmp_eq_zero_iff]
  exact eq_comm

lemma ctextO_cases (a b : Option Text) :
    ctextO a b = -1 ∨ ctextO a b = 0 ∨ ctextO a b = 1 := by
  cases a with
  | none => simp [ctextO]
  | some ta =>
    cases b with
    | none => simp [ctextO]
    | some tb => exact strcmp_cases ta tb

lemma ctextO_swap {a b : Option Text} (h : ctextO a b = 1) : ctextO b a = -1 := by
  cases a with
  | none => exact absurd h (by simp [ctextO])
  | some ta =>
    cases b with
    | none => exact absurd h (by simp [ctextO])
    | some tb => exact strcmp_swap.mp h

lemma ctextO_neg {a b : Option Text} (h : ctextO a b = -1) :
    ∃ ta tb, a = some ta ∧ b = some tb ∧ strcmp ta tb = -1 := by
  cases a with
  | none => exact absurd h (by simp [ctextO])
  | some ta =>
    cases b with
    | none => exact absurd h (by simp [ctextO])
    | some tb => exact ⟨ta, tb, rfl, rfl, h⟩

lemma ctextO_trans {a b c : Option Text}
    (h1 : ctextO a b = -1) (h2 : ctextO b c = -1) : ctextO a c = -1 := by
  obtain ⟨ta, tb, rfl, rfl, hab⟩ := ctextO_neg h1
  obtain ⟨tb', tc, hb, rfl, hbc⟩ := ctextO_neg h2
  rw [Option.some.injEq] at hb
  subst hb
  exact strcmp_trans hab hbc

lemma cidN_eq_neg_one {a b : Nat} : cidN a b = -1 ↔ a < b := by
  unfold cidN
  split
  · simp_all
  · split <;> simp_all

lemma cidN_eq_zero {a b : Nat} : cidN a b = 0 ↔ a = b := by
  unfold cidN
  split
  · constructor
    · intro hc; exact absurd hc (by decide)
    · omega
  · split
    · constructor
      · intro hc; exact absurd hc (by decide)
      · omega
    · constructor
      · intro _; omega
      · intro _; rfl

lemma cidN_eq_one {a b : Nat} : cidN a b = 1 ↔ b < a := by
  unfold cidN
  split
  · constructor
    · intro hc; exact absurd hc (by decide)
    · omega
  · split
    · simp_all
    · constructor
      · intro hc; exact absurd hc (by decide)
      · omega

lemma cidN_cases (a b : Nat) : cidN a b = -1 ∨ cidN a b = 0 ∨ cidN a b = 1 := by
  unfold cidN
  split
  · left; rfl
  · split
    · right; right; rfl
    · right; left; rfl

lemma ltText_trans {a b c : string} (h1 : ltText a b) (h2 : ltText b c) : ltText a c :=
  ctextO_trans h1 h2

lemma ltId_trans {a b c : string} (h1 : ltId a b) (h2 : ltId b c) : ltId a c := by
  unfold ltId string_node_compare_id at h1 h2 ⊢
  rw [cidN_eq_neg_one] at h1 h2 ⊢
  omega

instance : IsTrans string ltText := ⟨fun _ _ _ h1 h2 => ltText_trans h1 h2⟩

instance : IsTrans string ltId := ⟨fun _ _ _ h1 h2 => ltId_trans h1 h2⟩

lemma ltId_iff {a b : string} : ltId a b ↔ a.id < b.id := by
  unfold ltId string_node_compare_id
  exact cidN_eq_neg_one

/-! ### List machinery: find?, insertSorted, updateFirst, eraseP -/

lemma find?_unique {p : string → Bool} {l : List string} {x : string}
    (hx : x ∈ l) (hpx : p x) (hu : ∀ y ∈ l, p y → y = x) : l.find? p = some x := by
  induction l with
  | nil => cases hx
  | cons s ss ih =>
    by_cases hs : p s
    · have hsx : s = x := hu s (by simp) hs
      subst hsx
      exact List.find?_cons_of_pos _ hs
    · have hxs : x ∈ ss := by
        rcases List.mem_cons.mp hx with h | h
        · exact absurd (h ▸ hpx) hs
        · exact h
      rw [List.find?_cons_of_neg _ hs]
      exact ih hxs (fun y hy hpy => hu y (by simp [hy]) hpy)

lemma find?_eq_of_perm_unique {p : string → Bool} {l l' : List string}
    (hperm : l.Perm l')
    (hu : ∀ y ∈ l, p y → ∀ z ∈ l, p z → y = z) :
    l.find? p = l'.find? p := by
  cases hfind : l.find? p with
  | none =>
    rw [List.find?_eq_none] at hfind
    symm
    rw [List.find?_eq_none]
    intro x hx
    exact hfind x (hperm.mem_iff.mpr hx)
  | some a =>
    have ha := List.find?_some hfind
    have ham := List.mem_of_find?_eq_some hfind
    refine (find?_unique (hperm.mem_iff.mp ham) ha ?_).symm
    intro y hy hpy
    exact hu y (hperm.mem_iff.mpr hy) hpy a ham ha

lemma insertSorted_perm (cmp : Cmp) (l : List string) (n : string) :
    (insertSorted cmp l n).Perm (n :: l) := by
  induction l with
  | nil => exact List.Perm.refl _
  | cons s ss ih =>
    simp only [insertSorted]
    split
    · exact List.Perm.refl _
    · exact (ih.cons s).trans (List.Perm.swap n s ss)

lemma mem_insertSorted {cmp : Cmp} {l : List string} {n x : string} :
    x ∈ insertSorted cmp l n ↔ x = n ∨ x ∈ l := by
  rw [(insertSorted_perm cmp l n).mem_iff]
  simp

lemma length_insertSorted (cmp : Cmp) (l : List string) (n : string) :
    (insertSorted cmp l n).length = l.length + 1 :=
  (insertSorted_perm cmp l n).length_eq

lemma insertSorted_append {cmp : Cmp} {l : List string} {n : string}
    (h : ∀ s ∈ l, ¬ cmp n s < 0) :
    insertSorted cmp l n = l ++ [n] := by
  induction l with
  | nil => rfl
  | cons s ss ih =>
    simp only [insertSorted]
    rw [if_neg (h s (by simp))]
    rw [ih (fun x hx => h x (by simp [hx]))]
    rfl

lemma head?_insertSorted (cmp : Cmp) (l : List string) (n : string) :
    (insertSorted cmp l n).head? = some n ∨ (insertSorted cmp l n).head? = l.head? := by
  cases l with
  | nil => left; rfl
  | cons s ss =>
    simp only [insertSorted]
    split
    · left; rfl
    · right; rfl

lemma chain'_insertSorted {cmp : Cmp} {l : List string} {n : string}
    (hc : List.Chain' (fun a b => cmp a b = -1) l)
    (h0 : ∀ s ∈ l, cmp n s ≠ 0)
    (hr : ∀ s ∈ l, cmp n s = -1 ∨ cmp n s = 0 ∨ cmp n s = 1)
    (hs : ∀ s ∈ l, cmp n s = 1 → cmp s n = -1) :
    List.Chain' (fun a b => cmp a b = -1) (insertSorted cmp l n) := by
  induction l with
  | nil => simp [insertSorted]
  | cons s ss ih =>
    simp only [insertSorted]
    by_cases h : cmp n s < 0
    · rw [if_pos h]
      have h1 : cmp n s = -1 := by
        rcases hr s (by simp) with h' | h' | h' <;> omega
      exact List.chain'_cons.mpr ⟨h1, hc⟩
    · rw [if_neg h]
      have h1 : cmp n s = 1 := by
        rcases hr s (by simp) with h' | h' | h'
        · omega
        · exact absurd h' (h0 s (by simp))
        · exact h'
      have hsn : cmp s n = -1 := hs s (by simp) h1
      have ihh := ih hc.tail (fun x hx => h0 x (by simp [hx]))
        (fun x hx => hr x (by simp [hx])) (fun x hx => hs x (by simp [hx]))
      rw [List.chain'_cons']
      refine ⟨?_, ihh⟩
      intro y hy
      rcases head?_insertSorted cmp ss n with he | he
      · rw [he] at hy
        simp only [Option.mem_def, Option.some.injEq] at hy
        subst hy
        exact hsn
      · rw [he] at hy
        exact (List.chain'_cons'.mp hc).1 y hy

lemma updateFirst_map_eq {α : Type} (p : string → Bool) (g : string → string)
    (f : string → α) (hf : ∀ s, f (g s) = f s) :
    ∀ l : List string, (updateFirst p g l).map f = l.map f := by
  intro l
  induction l with
  | nil => rfl
  | cons s ss ih =>
    simp only [updateFirst]
    split
    · simp [hf]
    · simp only [List.map_cons, ih]

lemma find?_updateFirst (p : string → Bool) (g : string → string) {l : List string}
    (hpg : ∀ s, p (g s) = p s) :
    (updateFirst p g l).find? p = (l.find? p).map g := by
  induction l with
  | nil => rfl
  | cons s ss ih =>
    simp only [updateFirst]
    by_cases hs : p s
    · rw [if_pos hs, List.find?_cons_of_pos _ (by rw [hpg]; exact hs),
        List.find?_cons_of_pos _ hs]
      rfl
    · rw [if_neg hs, List.find?_cons_of_neg _ hs, List.find?_cons_of_neg _ hs, ih]

lemma chain'_updateFirst {R : string → string → Prop} {p : string → Bool}
    {g : string → string} {l : List string}
    (hL : ∀ a b, R (g a) b ↔ R a b) (hR : ∀ a b, R a (g b) ↔ R a b)
    (h : List.Chain' R l) : List.Chain' R (updateFirst p g l) := by
  induction l with
  | nil => exact h
  | cons s ss ih =>
    simp only [updateFirst]
    rw [List.chain'_cons'] at h
    by_cases hs : p s
    · rw [if_pos hs, List.chain'_cons']
      exact ⟨fun y hy => (hL s y).mpr (h.1 y hy), h.2⟩
    · rw [if_neg hs, List.chain'_cons']
      refine ⟨?_, ih h.2⟩
      intro y hy
      cases ss with
      | nil => simp [updateFirst] at hy
      | cons u us =>
        simp only [updateFirst] at hy
        by_cases hu : p u
        · rw [if_pos hu] at hy
          simp only [List.head?_cons, Option.mem_def, Option.some.injEq] at hy
          subst hy
          exact (hR s u).mpr (h.1 u (by simp))
        · rw [if_neg hu] at hy
          simp only [List.head?_cons, Option.mem_def, Option.some.injEq] at hy
          subst hy
          exact h.1 u (by simp)

lemma map_eraseP {α : Type} (f : string → α) (p : string → Bool) (q : α → Bool)
    (hq : ∀ s, p s = q (f s)) :
    ∀ l : List string, (l.eraseP p).map f = (l.map f).eraseP q := by
  intro l
  induction l with
  | nil => rfl
  | cons s ss ih =>
    by_cases hs : p s
    · rw [List.eraseP_cons_of_pos hs, List.map_cons,
        List.eraseP_cons_of_pos ((hq s) ▸ hs)]
    · rw [List.eraseP_cons_of_neg hs, List.map_cons, List.map_cons,
        List.eraseP_cons_of_neg ((hq s) ▸ hs), ih]

lemma eraseP_eq_erase_of_unique {α : Type} [DecidableEq α] {q : α → Bool}
    {l : List α} {x : α}
    (hx : x ∈ l) (hqx : q x) (hu : ∀ y ∈ l, q y → y = x) :
    l.eraseP q = l.erase x := by
  induction l with
  | nil => cases hx
  | cons s ss ih =>
    by_cases hs : q s
    · have hsx : s = x := hu s (by simp) hs
      subst hsx
      rw [List.eraseP_cons_of_pos hs, List.erase_cons_head]
    · have hsx : s ≠ x := fun h => hs (h ▸ hqx)
      have hxs : x ∈ ss := by
        rcases List.mem_cons.mp hx with h | h
        · exact absurd h.symm hsx
        · exact h
      rw [List.eraseP_cons_of_neg hs, List.erase_cons_tail,
        ih hxs (fun y hy hqy => hu y (by simp [hy]) hqy)]
      simp [hsx]

/-! ### Probe normalization and match uniqueness -/

@[simp] lemma sct_probe (r i : Nat) (t : Option Text) (s : string) :
    string_node_compare_text ⟨r, i, t⟩ s = ctextO t s.text := rfl

@[simp] lemma sci_probe (r : Nat) (i : Nat) (t : Option Text) (s : string) :
    string_node_compare_id ⟨r, i, t⟩ s = cidN i s.id := rfl

@[simp] lemma bumpRef_text (s : string) : (bumpRef s).text = s.text := rfl

@[simp] lemma bumpRef_id (s : string) : (bumpRef s).id = s.id := rfl

@[simp] lemma skey_bumpRef (s : string) : skey (bumpRef s) = skey s := rfl

lemma ltText_not_both_match {t : Text} {y z : string}
    (hpy : ctextO (some t) y.text = 0) (hpz : ctextO (some t) z.text = 0)
    (hlt : ltText y z) : False := by
  obtain ⟨ty, tz, hy, hz, hcmp⟩ :=
    ctextO_neg (show ctextO y.text z.text = -1 from hlt)
  rw [hy, ctextO_zero_some] at hpy
  rw [hz, ctextO_zero_some] at hpz
  subst hpy
  subst hpz
  rw [strcmp_self] at hcmp
  exact absurd hcmp (by decide)

lemma text_match_unique {l : List string} (hc : List.Chain' ltText l) (t : Text) :
    ∀ y ∈ l, ctextO (some t) y.text = 0 →
    ∀ z ∈ l, ctextO (some t) z.text = 0 → y = z := by
  have hp : l.Pairwise (fun a b => ltText a b ∨ ltText b a) :=
    (List.chain'_iff_pairwise.mp hc).imp Or.inl
  intro y hy hpy z hz hpz
  by_cases hne : y = z
  · exact hne
  · rcases hp.forall (fun a b hab => hab.symm) hy hz hne with h | h
    · exact absurd h (fun hlt => ltText_not_both_match hpy hpz hlt)
    · exact absurd h (fun hlt => ltText_not_both_match hpz hpy hlt)

lemma id_match_unique {l : List string} (hc : List.Chain' ltId l) :
    ∀ y ∈ l, ∀ z ∈ l, y.id = z.id → y = z := by
  have hp : l.Pairwise (fun a b => a.id ≠ b.id) :=
    (List.chain'_iff_pairwise.mp hc).imp (fun hab => Nat.ne_of_lt (ltId_iff.mp hab))
  intro y hy z hz he
  by_cases hne : y = z
  · exact hne
  · exact absurd he (hp.forall (fun a b hab => hab.symm) hy hz hne)

/-! ### Branch equations for strings_add and strings_remove -/

lemma strings_add_found {strs : strings} {str : string} {fs : string}
    (hf : avl_find string_node_compare_text strs.text_root ⟨0, 0, str.text⟩ = some fs) :
    strings_add strs str =
      (string_found,
        { strs with text_root :=
            updateFirst (fun s => ctextO str.text s.text == 0) bumpRef strs.text_root }) := by
  simp only [strings_add]
  rw [hf]
  rfl

lemma strings_add_fresh {strs : strings} {str : string}
    (hf : avl_find string_node_compare_text strs.text_root ⟨0, 0, str.text⟩ = none)
    (hid : ∀ s ∈ strs.id_root, s.id < strs.last_id) :
    strings_add strs str =
      (string_found,
        ⟨strs.last_id + 1,
         insertSorted string_node_compare_id strs.id_root ⟨0, strs.last_id, str.text⟩,
         insertSorted string_node_compare_text strs.text_root ⟨1, strs.last_id, str.text⟩⟩) := by
  have hmatch : ∀ s ∈ strs.text_root, ¬ (ctextO str.text s.text == 0) = true := by
    rw [avl_find, List.find?_eq_none] at hf
    intro s hs
    exact fun hc => hf s hs (by simpa using hc)
  have h1 : (strs.text_root.any fun s => ctextO str.text s.text == 0) = false := by
    rw [List.any_eq_false]
    exact hmatch
  have h2 : (strs.id_root.any fun s => cidN strs.last_id s.id == 0) = false := by
    rw [List.any_eq_false]
    intro s hs
    have hlt := hid s hs
    simp only [beq_iff_eq]
    rw [cidN_eq_zero]
    omega
  simp only [strings_add, avl_insert]
  rw [hf]
  simp only [sct_probe, sci_probe, h1, h2]
  rfl

lemma strings_remove_absent {strs : strings} {t : Text}
    (hf : avl_find string_node_compare_text strs.text_root ⟨0, 0, some t⟩ = none) :
    strings_remove strs (some t) = (string_failed, strs) := by
  simp only [strings_remove]
  rw [hf]

lemma strings_remove_found {strs : strings} {t : Text} {fs : string}
    (hf : avl_find string_node_compare_text strs.text_root ⟨0, 0, some t⟩ = some fs) :
    strings_remove strs (some t) =
      (string_found,
        ⟨strs.last_id,
         strs.id_root.eraseP (fun s => cidN fs.id s.id == 0),
         strs.text_root.eraseP (fun s => ctextO (some t) s.text == 0)⟩) := by
  simp only [strings_remove]
  rw [hf]
  simp only [avl_delete, sct_probe, sci_probe]

/-! ### The invariant is preserved by add and remove -/

lemma WF_empty : WF strings_empty := by decide

theorem WF_add {strs : strings} (str : string) (h : WF strs) :
    WF (strings_add strs str).2 := by
  obtain ⟨hct, hci, hperm, href, hid⟩ := h
  cases hf : avl_find string_node_compare_text strs.text_root ⟨0, 0, str.text⟩ with
  | some fs =>
    rw [strings_add_found hf]
    refine ⟨?_, hci, ?_, href, hid⟩
    · exact chain'_updateFirst (fun a b => Iff.rfl) (fun a b => Iff.rfl) hct
    · rw [updateFirst_map_eq _ bumpRef skey (fun s => rfl)]
      exact hperm
  | none =>
    rw [strings_add_fresh hf hid]
    have hmatch : ∀ s ∈ strs.text_root, ctextO str.text s.text ≠ 0 := by
      rw [avl_find, List.find?_eq_none] at hf
      intro s hs hc
      exact hf s hs (by simpa using hc)
    refine ⟨?_, ?_, ?_, ?_, ?_⟩
    · exact chain'_insertSorted hct (fun s hs => hmatch s hs)
        (fun s hs => ctextO_cases _ _) (fun s hs h1 => ctextO_swap h1)
    · refine chain'_insertSorted hci ?_ (fun s hs => cidN_cases _ _) ?_
      · intro s hs hc
        have := hid s hs
        rw [show string_node_compare_id ⟨0, strs.last_id, str.text⟩ s
              = cidN strs.last_id s.id from rfl, cidN_eq_zero] at hc
        omega
      · intro s hs h1
        rw [show string_node_compare_id ⟨0, strs.last_id, str.text⟩ s
              = cidN strs.last_id s.id from rfl, cidN_eq_one] at h1
        show cidN s.id strs.last_id = -1
        rw [cidN_eq_neg_one]
        exact h1
    · have e1 := (insertSorted_perm string_node_compare_id strs.id_root
        ⟨0, strs.last_id, str.text⟩).map skey
      have e2 := (insertSorted_perm string_node_compare_text strs.text_root
        ⟨1, strs.last_id, str.text⟩).map skey
      rw [List.map_cons] at e1 e2
      exact e1.trans ((hperm.cons _).trans e2.symm)
    · intro s hs
      rcases mem_insertSorted.mp hs with rfl | hs'
      · rfl
      · exact href s hs'
    · intro s hs
      rcases mem_insertSorted.mp hs with rfl | hs'
      · exact Nat.lt_succ_self _
      · exact Nat.lt_succ_of_lt (hid s hs')

theorem WF_remove {strs : strings} (t? : Option Text) (h : WF strs) :
    WF (strings_remove strs t?).2 := by
  obtain ⟨hct, hci, hperm, href, hid⟩ := h
  cases t? with
  | none => exact ⟨hct, hci, hperm, href, hid⟩
  | some t =>
    cases hf : avl_find string_node_compare_text strs.text_root ⟨0, 0, some t⟩ with
    | none =>
      rw [strings_remove_absent hf]
      exact ⟨hct, hci, hperm, href, hid⟩
    | some fs =>
      rw [strings_remove_found hf]
      have hfs_mem : fs ∈ strs.text_root := List.mem_of_find?_eq_some hf
      have hfs_match : ctextO (some t) fs.text = 0 := by
        have := List.find?_some hf
        simpa using this
      refine ⟨?_, ?_, ?_, ?_, ?_⟩
      · exact hct.sublist (List.eraseP_sublist _)
      · exact hci.sublist (List.eraseP_sublist _)
      · have hmapT : (strs.text_root.eraseP (fun s => ctextO (some t) s.text == 0)).map skey
            = (strs.text_root.map skey).eraseP (fun k => ctextO (some t) k.2 == 0) :=
          map_eraseP skey (fun s => ctextO (some t) s.text == 0)
            (fun k => ctextO (some t) k.2 == 0) (fun s => rfl) strs.text_root
        have hmapI : (strs.id_root.eraseP (fun s => cidN fs.id s.id == 0)).map skey
            = (strs.id_root.map skey).eraseP (fun k => cidN fs.id k.1 == 0) :=
          map_eraseP skey (fun s => cidN fs.id s.id == 0)
            (fun k => cidN fs.id k.1 == 0) (fun s => rfl) strs.id_root
        have hxT : skey fs ∈ strs.text_root.map skey := List.mem_map_of_mem _ hfs_mem
        have hxI : skey fs ∈ strs.id_root.map skey := hperm.mem_iff.mpr hxT
        have hqT : ((fun k : Nat × Option Text => ctextO (some t) k.2 == 0) (skey fs)) = true := by
          simpa [skey] using hfs_match
        have hqI : ((fun k : Nat × Option Text => cidN fs.id k.1 == 0) (skey fs)) = true := by
          simp [skey, cidN_eq_zero]
        have huT : ∀ y ∈ strs.text_root.map skey,
            ((fun k : Nat × Option Text => ctextO (some t) k.2 == 0) y) = true → y = skey fs := by
          intro y hy hqy
          obtain ⟨s, hs, rfl⟩ := List.mem_map.mp hy
          have hmy : ctextO (some t) s.text = 0 := by simpa [skey] using hqy
          rw [text_match_unique hct t s hs hmy fs hfs_mem hfs_match]
        have huI : ∀ y ∈ strs.id_root.map skey,
            ((fun k : Nat × Option Text => cidN fs.id k.1 == 0) y) = true → y = skey fs := by
          intro y hy hqy
          obtain ⟨s, hs, rfl⟩ := List.mem_map.mp hy
          have hsid : fs.id = s.id := by
            have := (beq_iff_eq.mp hqy)
            rw [cidN_eq_zero] at this
            simpa [skey] using this
          obtain ⟨s0, hs0, hk0⟩ := List.mem_map.mp hxI
          have hs0id : s0.id = fs.id := congrArg Prod.fst hk0
          have : s = s0 := id_match_unique hci s hs s0 hs0 (by omega)
          rw [this, hk0]
        rw [hmapT, hmapI, eraseP_eq_erase_of_unique hxT hqT huT,
          eraseP_eq_erase_of_unique hxI hqI huI]
        exact hperm.erase _
      · intro s hs
        exact href s ((List.eraseP_sublist _).subset hs)
      · intro s hs
        exact hid s ((List.eraseP_sublist _).subset hs)

/-! ### Renumbering -/

lemma renumber_walk_eq : ∀ (l : List string) (k : Nat) (idt : List string),
    (∀ s ∈ idt, s.id < k) →
    renumber_walk k idt l = (renumberText k l, idt ++ idDups k l, k + l.length) := by
  intro l
  induction l with
  | nil =>
    intro k idt hlt
    simp [renumber_walk, renumberText, idDups]
  | cons s ss ih =>
    intro k idt hlt
    have hins : avl_insert string_node_compare_id idt ⟨0, k, s.text⟩
        = some (idt ++ [⟨0, k, s.text⟩]) := by
      unfold avl_insert
      have hany : (idt.any fun x => string_node_compare_id ⟨0, k, s.text⟩ x == 0) = false := by
        rw [List.any_eq_false]
        intro x hx
        have := hlt x hx
        simp only [sci_probe, beq_iff_eq]
        rw [cidN_eq_zero]
        omega
      rw [hany, if_neg (by simp), insertSorted_append]
      intro x hx
      have := hlt x hx
      have h1 : string_node_compare_id ⟨0, k, s.text⟩ x = 1 := by
        rw [sci_probe, cidN_eq_one]
        omega
      rw [h1]
      exact by decide
    have hbound : ∀ x ∈ idt ++ [(⟨0, k, s.text⟩ : string)], x.id < k + 1 := by
      intro x hx
      rcases List.mem_append.mp hx with hx' | hx'
      · exact Nat.lt_succ_of_lt (hlt x hx')
      · rw [List.mem_singleton.mp hx']
        exact Nat.lt_succ_self k
    have hrec := ih (k + 1) (idt ++ [(⟨0, k, s.text⟩ : string)]) hbound
    simp only [renumber_walk, hins]
    rw [hrec]
    simp only [renumberText, idDups, List.length_cons, Prod.mk.injEq]
    refine ⟨by trivial, ?_, by omega⟩
    rw [List.append_assoc]
    rfl

lemma strings_renumber_eq (strs : strings) :
    strings_renumber strs =
      ⟨strs.text_root.length, idDups 0 strs.text_root, renumberText 0 strs.text_root⟩ := by
  unfold strings_renumber
  rw [renumber_walk_eq strs.text_root 0 [] (fun s hs => absurd hs (List.not_mem_nil s))]
  simp

lemma idDups_map_text : ∀ (l : List string) (k : Nat),
    (idDups k l).map (fun s => s.text) = l.map (fun s => s.text) := by
  intro l
  induction l with
  | nil => intro k; rfl
  | cons s ss ih => intro k; simp [idDups, ih]

lemma renumberText_map_text : ∀ (l : List string) (k : Nat),
    (renumberText k l).map (fun s => s.text) = l.map (fun s => s.text) := by
  intro l
  induction l with
  | nil => intro k; rfl
  | cons s ss ih => intro k; simp [renumberText, ih]

lemma renumberText_map_ref_text : ∀ (l : List string) (k : Nat),
    (renumberText k l).map (fun s => (s.ref_cnt, s.text)) =
      l.map (fun s => (s.ref_cnt, s.text)) := by
  intro l
  induction l with
  | nil => intro k; rfl
  | cons s ss ih => intro k; simp [renumberText, ih]

lemma idDups_map_skey : ∀ (l : List string) (k : Nat),
    (idDups k l).map skey = (renumberText k l).map skey := by
  intro l
  induction l with
  | nil => intro k; rfl
  | cons s ss ih => intro k; simp [idDups, renumberText, skey, ih]

lemma idDups_map_id : ∀ (l : List string) (k : Nat),
    (idDups k l).map (fun s => s.id) = List.range' k l.length := by
  intro l
  induction l with
  | nil => intro k; rfl
  | cons s ss ih => intro k; simp [idDups, ih, List.range'_succ]

lemma renumberText_map_id : ∀ (l : List string) (k : Nat),
    (renumberText k l).map (fun s => s.id) = List.range' k l.length := by
  intro l
  induction l with
  | nil => intro k; rfl
  | cons s ss ih => intro k; simp [renumberText, ih, List.range'_succ]

lemma idDups_ref : ∀ (l : List string) (k : Nat), ∀ s ∈ idDups k l, s.ref_cnt = 0 := by
  intro l
  induction l with
  | nil => intro k s hs; cases hs
  | cons s ss ih =>
    intro k x hx
    rcases List.mem_cons.mp hx with rfl | hx'
    · rfl
    · exact ih (k + 1) x hx'

lemma idDups_id_lt : ∀ (l : List string) (k : Nat), ∀ s ∈ idDups k l, s.id < k + l.length := by
  intro l
  induction l with
  | nil => intro k s hs; cases hs
  | cons s ss ih =>
    intro k x hx
    rcases List.mem_cons.mp hx with rfl | hx'
    · simp
    · have := ih (k + 1) x hx'
      simp only [List.length_cons]
      omega

lemma chain'_ltId_idDups : ∀ (l : List string) (k : Nat), List.Chain' ltId (idDups k l) := by
  intro l
  induction l with
  | nil => intro k; simp [idDups]
  | cons s ss ih =>
    intro k
    simp only [idDups]
    rw [List.chain'_cons']
    refine ⟨?_, ih (k + 1)⟩
    intro y hy
    cases ss with
    | nil => simp [idDups] at hy
    | cons u us =>
      simp only [idDups, List.head?_cons, Option.mem_def, Option.some.injEq] at hy
      subst hy
      exact ltId_iff.mpr (Nat.lt_succ_self k)

lemma chain'_ltText_renumberText (l : List string) (k : Nat)
    (h : List.Chain' ltText l) : List.Chain' ltText (renumberText k l) := by
  have h1 : List.Chain' (fun a b : string => ctextO a.text b.text = -1) l := h
  have h2 : List.Chain' (fun x y : Option Text => ctextO x y = -1)
      (l.map fun s => s.text) := (List.chain'_map _).mpr h1
  rw [← renumberText_map_text l k] at h2
  have h3 : List.Chain' (fun a b : string => ctextO a.text b.text = -1)
      (renumberText k l) := (List.chain'_map _).mp h2
  exact h3

theorem WF_renumber {strs : strings} (h : WF strs) : WF (strings_renumber strs) := by
  obtain ⟨hct, hci, hperm, href, hid⟩ := h
  rw [strings_renumber_eq]
  refine ⟨?_, ?_, ?_, ?_, ?_⟩
  · exact chain'_ltText_renumberText _ _ hct
  · exact chain'_ltId_idDups _ _
  · rw [idDups_map_skey]
  · exact idDups_ref _ _
  · intro s hs
    have := idDups_id_lt strs.text_root 0 s hs
    simpa using this

theorem WF_step {strs : strings} (op : strop) (h : WF strs) : WF (strings_step strs op) := by
  cases op with
  | add str => exact WF_add str h
  | remove t => exact WF_remove t h
  | renumber => exact WF_renumber h

theorem WF_run (ops : List strop) : ∀ {strs : strings}, WF strs → WF (strings_run strs ops) := by
  induction ops with
  | nil => intro strs h; exact h
  | cons op ops ih =>
    intro strs h
    exact ih (WF_step op h)

lemma WF_length_eq {strs : strings} (h : WF strs) :
    strs.id_root.length = strs.text_root.length := by
  have := h.2.2.1.length_eq
  simpa using this

/-! ### Lookup characterizations on well-formed tables -/

lemma ne_of_ltText {a b : string} (h : ltText a b) : a ≠ b := by
  intro he
  subst he
  obtain ⟨ta, tb, h1, h2, hcmp⟩ := ctextO_neg (show ctextO a.text a.text = -1 from h)
  rw [h1, Option.some.injEq] at h2
  subst h2
  rw [strcmp_self] at hcmp
  exact absurd hcmp (by decide)

lemma text_ne_of_ltText {a b : string} (h : ltText a b) : a.text ≠ b.text := by
  intro he
  obtain ⟨ta, tb, h1, h2, hcmp⟩ := ctextO_neg (show ctextO a.text b.text = -1 from h)
  rw [h1, h2, Option.some.injEq] at he
  subst he
  rw [strcmp_self] at hcmp
  exact absurd hcmp (by decide)

lemma nodup_text_root {strs : strings} (h : WF strs) : strs.text_root.Nodup :=
  (List.chain'_iff_pairwise.mp h.1).imp (fun hab => ne_of_ltText hab)

lemma nodup_id_root {strs : strings} (h : WF strs) : strs.id_root.Nodup :=
  (List.chain'_iff_pairwise.mp h.2.1).imp
    (fun hab he => absurd (congrArg string.id he) (Nat.ne_of_lt (ltId_iff.mp hab)))

lemma nodup_texts {strs : strings} (h : WF strs) :
    (strs.text_root.map (fun s => s.text)).Nodup :=
  List.pairwise_map.mpr ((List.chain'_iff_pairwise.mp h.1).imp (fun hab => text_ne_of_ltText hab))

/-- The texts of the id index agree with those of the text index up to order. -/
lemma id_texts_perm {strs : strings} (h : WF strs) :
    (strs.id_root.map (fun s => s.text)).Perm (strs.text_root.map (fun s => s.text)) := by
  have := (h.2.2.1).map Prod.snd
  rw [List.map_map, List.map_map] at this
  exact this

lemma find_by_text_WF {strs : strings} (h : WF strs) {t : Text} {x : string}
    (hx : x ∈ strs.text_root) (hxt : x.text = some t) :
    strings_find_by_text strs (some t) = some x := by
  have hpx : (string_node_compare_text ⟨0, 0, some t⟩ x == 0) = true := by
    simp [hxt, ctextO_some_some, strcmp_self]
  refine find?_unique hx hpx ?_
  intro y hy hpy
  have hmy : ctextO (some t) y.text = 0 := by simpa using hpy
  exact text_match_unique h.1 t y hy hmy x hx (by simpa using hpx)

lemma find_by_id_WF {strs : strings} (h : WF strs) {i : Nat} {x : string}
    (hx : x ∈ strs.id_root) (hxi : x.id = i) :
    strings_find_by_id strs i = some x := by
  have hpx : (string_node_compare_id ⟨0, i, none⟩ x == 0) = true := by
    simp [hxi, cidN_eq_zero]
  refine find?_unique hx hpx ?_
  intro y hy hpy
  have hmy : i = y.id := by
    have := beq_iff_eq.mp hpy
    rw [sci_probe, cidN_eq_zero] at this
    exact this
  exact id_match_unique h.2.1 y hy x hx (by omega)

lemma find_by_text_none {strs : strings} {t : Text}
    (hall : ∀ s ∈ strs.text_root, s.text ≠ none)
    (habs : ∀ s ∈ strs.text_root, s.text ≠ some t) :
    strings_find_by_text strs (some t) = none := by
  show List.find? _ _ = none
  rw [List.find?_eq_none]
  intro s hs hc
  cases hst : s.text with
  | none => exact hall s hs hst
  | some ts =>
    have hct : ctextO (some t) s.text = 0 := by simpa using hc
    rw [hst, ctextO_zero_some] at hct
    exact habs s hs (by rw [hst, hct])

lemma find_by_id_none {strs : strings} {i : Nat}
    (habs : ∀ s ∈ strs.id_root, s.id ≠ i) :
    strings_find_by_id strs i = none := by
  show List.find? _ _ = none
  rw [List.find?_eq_none]
  intro s hs hc
  have : i = s.id := by
    have := beq_iff_eq.mp hc
    rw [sci_probe, cidN_eq_zero] at this
    exact this
  exact habs s hs this.symm

/-! ### Sequences of adds -/

lemma length_updateFirst (p : string → Bool) (g : string → string) :
    ∀ l : List string, (updateFirst p g l).length = l.length := by
  intro l
  induction l with
  | nil => rfl
  | cons s ss ih =>
    simp only [updateFirst]
    split <;> simp [ih]

lemma add_lastid_step {strs : strings} (str : string) (h : WF strs)
    (he : strs.last_id = strs.text_root.length) :
    (strings_add strs str).2.last_id = (strings_add strs str).2.text_root.length := by
  cases hf : avl_find string_node_compare_text strs.text_root ⟨0, 0, str.text⟩ with
  | some fs =>
    rw [strings_add_found hf]
    simpa [length_updateFirst] using he
  | none =>
    rw [strings_add_fresh hf h.2.2.2.2]
    simp [length_insertSorted, he]

lemma run_adds_wf_lastid : ∀ (l : List string) (strs : strings), WF strs →
    strs.last_id = strs.text_root.length →
    WF (strings_run_adds strs l) ∧
      (strings_run_adds strs l).last_id = (strings_run_adds strs l).text_root.length := by
  intro l
  induction l with
  | nil => intro strs h he; exact ⟨h, he⟩
  | cons str rest ih =>
    intro strs h he
    exact ih _ (WF_add str h) (add_lastid_step str h he)

lemma run_add_texts_snoc (ts : List Text) (t : Text) :
    strings_run_add_texts (ts ++ [t]) =
      (strings_add (strings_run_add_texts ts) ⟨0, 0, some t⟩).2 := by
  unfold strings_run_add_texts
  rw [List.foldl_append]
  rfl

lemma run_add_texts_spec : ∀ ts : List Text, ts.Nodup →
    WF (strings_run_add_texts ts) ∧
    (strings_run_add_texts ts).last_id = ts.length ∧
    (strings_run_add_texts ts).text_root.length = ts.length ∧
    (∀ t', (∃ s ∈ (strings_run_add_texts ts).text_root, s.text = some t') ↔ t' ∈ ts) ∧
    (∀ s ∈ (strings_run_add_texts ts).text_root, s.text ≠ none) ∧
    (∀ k, ∀ hk : k < ts.length,
      strings_find_by_text (strings_run_add_texts ts) (some (ts.get ⟨k, hk⟩)) =
        some ⟨1, k, some (ts.get ⟨k, hk⟩)⟩ ∧
      strings_find_by_id (strings_run_add_texts ts) k =
        some ⟨0, k, some (ts.get ⟨k, hk⟩)⟩) := by
  intro ts
  induction ts using List.reverseRecOn with
  | nil =>
    intro _
    refine ⟨WF_empty, rfl, rfl, ?_, ?_, ?_⟩
    · intro t'
      simp [strings_run_add_texts, strings_empty]
    · intro s hs
      simp [strings_run_add_texts, strings_empty] at hs
    · intro k hk
      exact absurd hk (Nat.not_lt_zero k)
  | append_singleton ts t ih =>
    intro hnd
    have hndts : ts.Nodup := (List.nodup_append.mp hnd).1
    have htnm : t ∉ ts := by
      intro ht
      exact (List.nodup_append.mp hnd).2.2 ht (by simp)
    obtain ⟨hwf, hlast, hlen, hset, hall, hlook⟩ := ih hndts
    have htabs : ∀ s ∈ (strings_run_add_texts ts).text_root, s.text ≠ some t := by
      intro s hs hc
      exact htnm ((hset t).mp ⟨s, hs, hc⟩)
    have hf : avl_find string_node_compare_text (strings_run_add_texts ts).text_root
        ⟨0, 0, some t⟩ = none := find_by_text_none hall htabs
    have hadd : strings_add (strings_run_add_texts ts) ⟨0, 0, some t⟩ =
        (string_found,
          ⟨(strings_run_add_texts ts).last_id + 1,
           insertSorted string_node_compare_id (strings_run_add_texts ts).id_root
             ⟨0, (strings_run_add_texts ts).last_id, some t⟩,
           insertSorted string_node_compare_text (strings_run_add_texts ts).text_root
             ⟨1, (strings_run_add_texts ts).last_id, some t⟩⟩) := by
      rw [strings_add_fresh hf hwf.2.2.2.2]
    have hwf' := WF_add (⟨0, 0, some t⟩ : string) hwf
    rw [run_add_texts_snoc]
    rw [hadd] at hwf' ⊢
    refine ⟨hwf', ?_, ?_, ?_, ?_, ?_⟩
    · simp [hlast]
    · simp [length_insertSorted, hlen]
    · intro t'
      constructor
      · rintro ⟨s, hs, hst⟩
        rcases mem_insertSorted.mp hs with rfl | hs'
        · rw [Option.some.injEq] at hst
          simp [hst]
        · have := (hset t').mp ⟨s, hs', hst⟩
          simp [this]
      · intro ht'
        rcases List.mem_append.mp ht' with hmem | hmem
        · obtain ⟨s, hs, hst⟩ := (hset t').mpr hmem
          exact ⟨s, mem_insertSorted.mpr (Or.inr hs), hst⟩
        · rw [List.mem_singleton] at hmem
          refine ⟨⟨1, (strings_run_add_texts ts).last_id, some t⟩,
            mem_insertSorted.mpr (Or.inl rfl), ?_⟩
          rw [hmem]
    · intro s hs
      rcases mem_insertSorted.mp hs with rfl | hs'
      · simp
      · exact hall s hs'
    · intro k hk
      by_cases hklt : k < ts.length
      · have hget : (ts ++ [t]).get ⟨k, hk⟩ = ts.get ⟨k, hklt⟩ := List.get_append k hklt
        obtain ⟨hft, hfi⟩ := hlook k hklt
        have hxmem : (⟨1, k, some (ts.get ⟨k, hklt⟩)⟩ : string) ∈
            (strings_run_add_texts ts).text_root := List.mem_of_find?_eq_some hft
        have hymem : (⟨0, k, some (ts.get ⟨k, hklt⟩)⟩ : string) ∈
            (strings_run_add_texts ts).id_root := List.mem_of_find?_eq_some hfi
        rw [hget]
        exact ⟨find_by_text_WF hwf' (mem_insertSorted.mpr (Or.inr hxmem)) rfl,
          find_by_id_WF hwf' (mem_insertSorted.mpr (Or.inr hymem)) rfl⟩
      · have hk2 : k = ts.length := by
          have := hk
          simp only [List.length_append, List.length_singleton] at this
          omega
        subst hk2
        have hget : (ts ++ [t]).get ⟨ts.length, hk⟩ = t := by
          simp [List.get_eq_getElem, List.getElem_concat_length]
        rw [hget, ← hlast]
        exact ⟨find_by_text_WF hwf' (mem_insertSorted.mpr (Or.inl rfl)) rfl,
          find_by_id_WF hwf' (mem_insertSorted.mpr (Or.inl rfl)) rfl⟩

/-! ### Deep copy -/

lemma strings_add_text_only (strs : strings) (a b : string) (h : a.text = b.text) :
    strings_add strs a = strings_add strs b := by
  unfold strings_add
  rw [h]

lemma duper_walk_foldl : ∀ (l : List string) (acc : strings),
    (∀ s ∈ l, s.text ≠ none) →
    duper_walk acc l =
      List.foldl (fun T t => (strings_add T ⟨0, 0, some t⟩).2) acc
        (l.filterMap fun s => s.text) := by
  intro l
  induction l with
  | nil => intro acc _; rfl
  | cons s ss ih =>
    intro acc h
    cases hst : s.text with
    | none => exact absurd hst (h s (by simp))
    | some t =>
      have hdup : string_dup s = some s := by
        unfold string_dup
        rw [hst]
      have hstep : duper_walk acc (s :: ss) = duper_walk (strings_add acc s).2 ss := by
        simp only [duper_walk, hdup]
      have hfm : (s :: ss).filterMap (fun x => x.text) =
          t :: ss.filterMap (fun x => x.text) := by
        simp [List.filterMap_cons, hst]
      rw [hstep, hfm, List.foldl_cons,
        show strings_add acc s = strings_add acc ⟨0, 0, some t⟩ from
          strings_add_text_only acc s _ hst]
      exact ih _ (fun x hx => h x (by simp [hx]))

lemma strings_dup_eq {strs : strings} (hall : ∀ s ∈ strs.id_root, s.text ≠ none) :
    strings_dup strs = strings_run_add_texts (id_texts strs) := by
  unfold strings_dup strings_run_add_texts id_texts
  exact duper_walk_foldl strs.id_root strings_empty hall

lemma filterMap_some_of_all {l : List string} (hall : ∀ s ∈ l, s.text ≠ none) :
    (l.filterMap fun s => s.text).map some = l.map fun s => s.text := by
  induction l with
  | nil => rfl
  | cons s ss ih =>
    cases hst : s.text with
    | none => exact absurd hst (hall s (by simp))
    | some t =>
      have := ih (fun x hx => hall x (by simp [hx]))
      simp [List.filterMap_cons, hst, this]

lemma id_texts_length {strs : strings} (hall : ∀ s ∈ strs.id_root, s.text ≠ none) :
    (id_texts strs).length = strs.id_root.length := by
  have := congrArg List.length (filterMap_some_of_all hall)
  simpa [id_texts] using this

lemma nodup_id_texts {strs : strings} (h : WF strs)
    (hall : ∀ s ∈ strs.id_root, s.text ≠ none) : (id_texts strs).Nodup := by
  have h1 : (strs.id_root.map fun s => s.text).Nodup :=
    (id_texts_perm h).nodup_iff.mpr (nodup_texts h)
  rw [← filterMap_some_of_all hall] at h1
  exact h1.of_map _

/-! ### Per-value uniqueness on well-formed tables -/

lemma filter_eq_singleton {p : string → Bool} {l : List string} {x : string}
    (hx : x ∈ l) (hpx : p x) (hu : ∀ y ∈ l, p y → y = x) (hnd : l.Nodup) :
    l.filter p = [x] := by
  induction l with
  | nil => cases hx
  | cons s ss ih =>
    by_cases hs : p s
    · have hsx : s = x := hu s (by simp) hs
      subst hsx
      rw [List.filter_cons_of_pos hs]
      have hnil : ss.filter p = [] := by
        rw [List.filter_eq_nil_iff]
        intro y hy hpy
        have hys : y = s := hu y (by simp [hy]) hpy
        subst hys
        exact (List.nodup_cons.mp hnd).1 hy
      rw [hnil]
    · have hxs : x ∈ ss := by
        rcases List.mem_cons.mp hx with h | h
        · exact absurd (h ▸ hpx) hs
        · exact h
      rw [List.filter_cons_of_neg hs]
      exact ih hxs (fun y hy hpy => hu y (by simp [hy]) hpy) (List.nodup_cons.mp hnd).2

lemma WF_unique_per_value {strs : strings} (h : WF strs) {t : Text}
    (hex : ∃ s ∈ strs.text_root, s.text = some t) :
    strs.text_root.countP (fun s => s.text == some t) = 1 ∧
    strs.id_root.countP (fun s => s.text == some t) = 1 ∧
    (∀ a ∈ strs.text_root, a.text = some t →
     ∀ b ∈ strs.id_root, b.text = some t → a.id = b.id ∧ a.text = b.text) := by
  obtain ⟨x, hx, hxt⟩ := hex
  have hpx : ((fun s => s.text == some t) x) = true := by simp [hxt]
  have hu : ∀ y ∈ strs.text_root, ((fun s => s.text == some t) y) = true → y = x := by
    intro y hy hqy
    have hyt : y.text = some t := by simpa using hqy
    exact text_match_unique h.1 t y hy (by simp [hyt, ctextO_some_some, strcmp_self]) x hx
      (by simp [hxt, ctextO_some_some, strcmp_self])
  have hcT : strs.text_root.countP (fun s => s.text == some t) = 1 := by
    rw [List.countP_eq_length_filter, filter_eq_singleton hx hpx hu (nodup_text_root h)]
    rfl
  refine ⟨hcT, ?_, ?_⟩
  · have e1 : strs.id_root.countP (fun s => s.text == some t) =
        (strs.id_root.map skey).countP (fun k => k.2 == some t) := by
      rw [List.countP_map]
      rfl
    have e2 : strs.text_root.countP (fun s => s.text == some t) =
        (strs.text_root.map skey).countP (fun k => k.2 == some t) := by
      rw [List.countP_map]
      rfl
    rw [e1, h.2.2.1.countP_eq, ← e2, hcT]
  · intro a ha hat b hb hbt
    have hax : a = x := hu a ha (by simp [hat])
    have hkb : skey b ∈ strs.text_root.map skey :=
      h.2.2.1.mem_iff.mp (List.mem_map_of_mem _ hb)
    obtain ⟨a', ha', hka'⟩ := List.mem_map.mp hkb
    have ha't : a'.text = b.text := congrArg Prod.snd hka'
    have ha'x : a' = x := hu a' ha' (by simp [ha't, hbt])
    have hid : a'.id = b.id := congrArg Prod.fst hka'
    subst hax
    constructor
    · rw [← ha'x]
      exact hid
    · rw [hat, hbt]

lemma idDups_map_ref_text : ∀ (l : List string) (k : Nat),
    (idDups k l).map (fun s => (s.ref_cnt, s.text)) =
      l.map (fun s => ((0 : Nat), s.text)) := by
  intro l
  induction l with
  | nil => intro k; rfl
  | cons s ss ih => intro k; simp [idDups, ih]

/-- C1 (corrected claim): for every table reachable from a fresh table by a
sequence of operations and every text value present in it, there is exactly
one record for that value in the text index and exactly one in the id
index, and the two agree on id and text.  Their reference counts however
disagree in general: an add that hits an existing value increments only the
text-index copy, while the id-index duplicate keeps the count 0 it was
created with (see the counterexample). -/
theorem libstrings_c1_amended : ∀ (ops : List strop) (t : Text),
    (∃ s ∈ (strings_run strings_empty ops).text_root, s.text = some t) →
    (strings_run strings_empty ops).text_root.countP (fun s => s.text == some t) = 1 ∧
    (strings_run strings_empty ops).id_root.countP (fun s => s.text == some t) = 1 ∧
    (∀ a ∈ (strings_run strings_empty ops).text_root, a.text = some t →
     ∀ b ∈ (strings_run strings_empty ops).id_root, b.text = some t →
       a.id = b.id ∧ a.text = b.text) := by
  intro ops t hex
  exact WF_unique_per_value (WF_run ops WF_empty) hex

/-- C1 counterexample: after interning the one-byte text 97 twice, the
text-index record carries reference count 2 while the id-index record for
the same value carries 0, so the two copies do not agree on ref_count. -/
theorem libstrings_c1_counterexample :
    (strings_find_by_text
        (strings_run strings_empty [strop.add ⟨0, 0, some [97]⟩, strop.add ⟨0, 0, some [97]⟩])
        (some [97])).map (fun s => s.ref_cnt) = some 2 ∧
    (strings_find_by_id
        (strings_run strings_empty [strop.add ⟨0, 0, some [97]⟩, strop.add ⟨0, 0, some [97]⟩])
        0).map (fun s => s.ref_cnt) = some 0 := by decide

/-- C1 witness: the amended statement applied to the concrete one-add run. -/
theorem libstrings_c1_witness :
    (∃ s ∈ (strings_run strings_empty [strop.add ⟨3, 5, some [97]⟩]).text_root,
        s.text = some [97]) ∧
    (strings_run strings_empty [strop.add ⟨3, 5, some [97]⟩]).id_root.countP
        (fun s => s.text == some [97]) = 1 := by
  refine ⟨by decide, ?_⟩
  exact (libstrings_c1_amended [strop.add ⟨3, 5, some [97]⟩] [97] (by decide)).2.1

/-- C5: after renumber, next_id equals the record count, the id index holds
exactly the (id, text) keys of the text index in the same (ascending text)
order, texts are unchanged, both indices carry the dense ids 0..count-1 in
that order, and walking by id visits the same text sequence as walking by
text. -/
theorem libstrings_c5 : ∀ strs : strings,
    (strings_renumber strs).last_id = strs.text_root.length ∧
    (strings_renumber strs).id_root.map skey = (strings_renumber strs).text_root.map skey ∧
    (strings_renumber strs).text_root.map (fun s => s.text) =
      strs.text_root.map (fun s => s.text) ∧
    (strings_renumber strs).id_root.map (fun s => s.id) =
      List.range' 0 strs.text_root.length ∧
    (strings_renumber strs).text_root.map (fun s => s.id) =
      List.range' 0 strs.text_root.length ∧
    (strings_walk (strings_renumber strs) string_key.string_id).map (fun s => s.text) =
      (strings_walk (strings_renumber strs) string_key.string_text).map (fun s => s.text) := by
  intro strs
  rw [strings_renumber_eq]
  refine ⟨rfl, idDups_map_skey _ _, renumberText_map_text _ _, idDups_map_id _ _,
    renumberText_map_id _ _, ?_⟩
  show (idDups 0 strs.text_root).map _ = (renumberText 0 strs.text_root).map _
  rw [idDups_map_text, renumberText_map_text]

/-- C8 (code bug): when `avl_new` fails for either index, `strings_new` does
not return NULL; the `goto exit` path returns the partially initialized
struct, with the failed index root (and everything after it) still NULL.
Only a `malloc` failure of the struct itself yields NULL. -/
theorem libstrings_c8_bug :
    strings_new true false true = some ⟨0, none, none⟩ ∧
    strings_new true true false = some ⟨0, some [], none⟩ ∧
    strings_new true true true = some ⟨0, some [], some []⟩ ∧
    strings_new false true true = none := by decide

/-- C9: starting from a fresh table, after every sequence of add calls the
text index and the id index hold the same number of records. -/
theorem libstrings_c9 : ∀ l : List string,
    (strings_run_adds strings_empty l).text_root.length =
      (strings_run_adds strings_empty l).id_root.length := by
  intro l
  exact (WF_length_eq (run_adds_wf_lastid l strings_empty WF_empty rfl).1).symm

/-- C10: renumber changes no reference count and no text: the text index
keeps its (ref_cnt, text) sequence unchanged, and the id index keeps the
same multiset of (ref_cnt, text) pairs (every id-index duplicate carried
count 0 before and after). -/
theorem libstrings_c10 : ∀ strs : strings, WF strs →
    ((strings_renumber strs).text_root.map (fun s => (s.ref_cnt, s.text)) =
      strs.text_root.map (fun s => (s.ref_cnt, s.text))) ∧
    ((strings_renumber strs).id_root.map (fun s => (s.ref_cnt, s.text))).Perm
      (strs.id_root.map (fun s => (s.ref_cnt, s.text))) := by
  intro strs h
  rw [strings_renumber_eq]
  refine ⟨renumberText_map_ref_text _ _, ?_⟩
  rw [idDups_map_ref_text]
  have hmapr : strs.id_root.map (fun s => (s.ref_cnt, s.text)) =
      strs.id_root.map (fun s => ((0 : Nat), s.text)) := by
    apply List.map_congr_left
    intro s hs
    rw [h.2.2.2.1 s hs]
  rw [hmapr]
  have hp := (id_texts_perm h).symm
  have hmp := hp.map (fun t : Option Text => ((0 : Nat), t))
  rw [List.map_map, List.map_map] at hmp
  exact hmp

/-- C10 witness: renumbering the concrete one-entry table preserves its
reference counts and texts in both indices. -/
theorem libstrings_c10_witness :
    WF (⟨1, [⟨0, 0, some [97]⟩], [⟨1, 0, some [97]⟩]⟩ : strings) ∧
    (strings_renumber ⟨1, [⟨0, 0, some [97]⟩], [⟨1, 0, some [97]⟩]⟩).text_root.map
        (fun s => (s.ref_cnt, s.text)) =
      [(⟨1, 0, some [97]⟩ : string)].map (fun s => (s.ref_cnt, s.text)) := by
  refine ⟨by decide, ?_⟩
  exact (libstrings_c10 ⟨1, [⟨0, 0, some [97]⟩], [⟨1, 0, some [97]⟩]⟩ (by decide)).1

/-- C2: on a table whose records all carry text (the spec's data model) and
with no byte-for-byte equal text in the text index, add reports Found,
assigns the current next id (`last_id`) to the value, increments `last_id`,
leaves the new text-index record with reference count 1, and inserts the
`string_node_dup` duplicate (same id and text, count 0) into the id index;
each index grows by exactly one record.  Over add-only runs from a fresh
table, `last_id` always equals the count of distinct values, so the fresh
id equals the prior count of distinct values. -/
theorem libstrings_c2 :
    (∀ (strs : strings) (t : Text) (rc i0 : Nat),
      WF strs →
      (∀ s ∈ strs.text_root, s.text ≠ none) →
      (∀ s ∈ strs.text_root, s.text ≠ some t) →
      (strings_add strs ⟨rc, i0, some t⟩).1 = string_found ∧
      (strings_add strs ⟨rc, i0, some t⟩).2.last_id = strs.last_id + 1 ∧
      strings_find_by_text (strings_add strs ⟨rc, i0, some t⟩).2 (some t) =
        some ⟨1, strs.last_id, some t⟩ ∧
      strings_find_by_id (strings_add strs ⟨rc, i0, some t⟩).2 strs.last_id =
        some ⟨0, strs.last_id, some t⟩ ∧
      (strings_add strs ⟨rc, i0, some t⟩).2.text_root.length = strs.text_root.length + 1 ∧
      (strings_add strs ⟨rc, i0, some t⟩).2.id_root.length = strs.id_root.length + 1) ∧
    (∀ l : List string,
      (strings_run_adds strings_empty l).last_id =
        (strings_run_adds strings_empty l).text_root.length) := by
  constructor
  · intro strs t rc i0 h hall habs
    have hf : avl_find string_node_compare_text strs.text_root
        ⟨0, 0, (⟨rc, i0, some t⟩ : string).text⟩ = none := find_by_text_none hall habs
    have hwf' := WF_add (⟨rc, i0, some t⟩ : string) h
    have hadd : strings_add strs ⟨rc, i0, some t⟩ =
        (string_found, ⟨strs.last_id + 1,
          insertSorted string_node_compare_id strs.id_root ⟨0, strs.last_id, some t⟩,
          insertSorted string_node_compare_text strs.text_root ⟨1, strs.last_id, some t⟩⟩) := by
      rw [strings_add_fresh hf h.2.2.2.2]
    rw [hadd] at hwf' ⊢
    refine ⟨rfl, rfl, ?_, ?_, ?_, ?_⟩
    · exact find_by_text_WF hwf' (mem_insertSorted.mpr (Or.inl rfl)) rfl
    · exact find_by_id_WF hwf' (mem_insertSorted.mpr (Or.inl rfl)) rfl
    · exact length_insertSorted _ _ _
    · exact length_insertSorted _ _ _
  · intro l
    exact (run_adds_wf_lastid l strings_empty WF_empty rfl).2

/-- C2 witness: a fresh add of the one-byte text 97 to the empty table. -/
theorem libstrings_c2_witness :
    WF strings_empty ∧
    (strings_add strings_empty ⟨5, 9, some [97]⟩).1 = string_found ∧
    strings_find_by_text (strings_add strings_empty ⟨5, 9, some [97]⟩).2 (some [97]) =
      some ⟨1, 0, some [97]⟩ := by
  refine ⟨by decide, ?_, ?_⟩
  · exact (libstrings_c2.1 strings_empty [97] 5 9 (by decide) (by decide) (by decide)).1
  · exact (libstrings_c2.1 strings_empty [97] 5 9 (by decide) (by decide) (by decide)).2.2.1

/-- C3: when a record with byte-for-byte the same text is already present in
a well-formed table, add reports Found and only increments that record's
reference count in the text index: the id index, `last_id`, and the (id,
text) keys of the text index are all unchanged, and the caller-supplied
record's ref_cnt and id fields (arbitrary here) are never consulted. -/
theorem libstrings_c3 : ∀ (strs : strings) (t : Text) (rc i0 : Nat) (fs : string),
    WF strs → fs ∈ strs.text_root → fs.text = some t →
    (strings_add strs ⟨rc, i0, some t⟩).1 = string_found ∧
    (strings_add strs ⟨rc, i0, some t⟩).2.id_root = strs.id_root ∧
    (strings_add strs ⟨rc, i0, some t⟩).2.last_id = strs.last_id ∧
    strings_find_by_text (strings_add strs ⟨rc, i0, some t⟩).2 (some t) =
      some (bumpRef fs) ∧
    (strings_add strs ⟨rc, i0, some t⟩).2.text_root.map skey =
      strs.text_root.map skey := by
  intro strs t rc i0 fs h hmem htext
  have hfind : strings_find_by_text strs (some t) = some fs := find_by_text_WF h hmem htext
  have hf : avl_find string_node_compare_text strs.text_root
      ⟨0, 0, (⟨rc, i0, some t⟩ : string).text⟩ = some fs := hfind
  rw [strings_add_found hf]
  refine ⟨rfl, rfl, rfl, ?_, ?_⟩
  · show List.find? (fun s => ctextO (some t) s.text == 0)
        (updateFirst (fun s => ctextO (some t) s.text == 0) bumpRef strs.text_root) =
      some (bumpRef fs)
    rw [find?_updateFirst (fun s => ctextO (some t) s.text == 0) bumpRef (fun s => rfl)]
    have hfind' : List.find? (fun s => ctextO (some t) s.text == 0) strs.text_root =
        some fs := hfind
    rw [hfind']
    rfl
  · exact updateFirst_map_eq _ bumpRef skey (fun s => rfl) _

/-- C3 witness: re-adding the one-byte text 97 to the concrete one-entry
table bumps its count to 2 and reports Found. -/
theorem libstrings_c3_witness :
    WF (⟨1, [⟨0, 0, some [97]⟩], [⟨1, 0, some [97]⟩]⟩ : strings) ∧
    (strings_add ⟨1, [⟨0, 0, some [97]⟩], [⟨1, 0, some [97]⟩]⟩ ⟨7, 3, some [97]⟩).1 =
      string_found ∧
    strings_find_by_text
        (strings_add ⟨1, [⟨0, 0, some [97]⟩], [⟨1, 0, some [97]⟩]⟩ ⟨7, 3, some [97]⟩).2
        (some [97]) = some ⟨2, 0, some [97]⟩ := by
  refine ⟨by decide, ?_, ?_⟩
  · exact (libstrings_c3 _ [97] 7 3 ⟨1, 0, some [97]⟩ (by decide) (by decide) rfl).1
  · exact (libstrings_c3 _ [97] 7 3 ⟨1, 0, some [97]⟩ (by decide) (by decide) rfl).2.2.2.1

/-- C4: on a well-formed table whose records all carry text, remove of an
absent text reports Failed (never NotFound) and leaves the table exactly
unchanged; remove of a present text reports Found, deletes exactly one
record from each index (the text entry and the id entry with the captured
id), after which lookup by that text and by the former id both return
absent. -/
theorem libstrings_c4 : ∀ (strs : strings) (t : Text),
    WF strs → (∀ s ∈ strs.text_root, s.text ≠ none) →
    ((∀ s ∈ strs.text_root, s.text ≠ some t) →
      strings_remove strs (some t) = (string_failed, strs)) ∧
    (∀ fs, fs ∈ strs.text_root → fs.text = some t →
      (strings_remove strs (some t)).1 = string_found ∧
      (strings_remove strs (some t)).2.text_root.length + 1 = strs.text_root.length ∧
      (strings_remove strs (some t)).2.id_root.length + 1 = strs.id_root.length ∧
      strings_find_by_text (strings_remove strs (some t)).2 (some t) = none ∧
      strings_find_by_id (strings_remove strs (some t)).2 fs.id = none) := by
  intro strs t h hall
  constructor
  · intro habs
    exact strings_remove_absent (find_by_text_none hall habs)
  · intro fs hmem htext
    have hf : avl_find string_node_compare_text strs.text_root ⟨0, 0, some t⟩ = some fs :=
      find_by_text_WF h hmem htext
    rw [strings_remove_found hf]
    have hmatch_fs : ctextO (some t) fs.text = 0 := by
      simp [htext, ctextO_some_some, strcmp_self]
    have hpT : ((fun s => ctextO (some t) s.text == 0) fs) = true := by
      simpa using hmatch_fs
    have huT : ∀ y ∈ strs.text_root,
        ((fun s => ctextO (some t) s.text == 0) y) = true → y = fs := by
      intro y hy hqy
      exact text_match_unique h.1 t y hy (by simpa using hqy) fs hmem hmatch_fs
    have heqT : strs.text_root.eraseP (fun s => ctextO (some t) s.text == 0) =
        strs.text_root.erase fs := eraseP_eq_erase_of_unique hmem hpT huT
    have hkey : skey fs ∈ strs.id_root.map skey :=
      h.2.2.1.mem_iff.mpr (List.mem_map_of_mem _ hmem)
    obtain ⟨s0, hs0, hk0⟩ := List.mem_map.mp hkey
    have hs0id : s0.id = fs.id := congrArg Prod.fst hk0
    have hpI : ((fun s => cidN fs.id s.id == 0) s0) = true := by
      simp [hs0id, cidN_eq_zero]
    have huI : ∀ y ∈ strs.id_root,
        ((fun s => cidN fs.id s.id == 0) y) = true → y = s0 := by
      intro y hy hqy
      have hyid : fs.id = y.id := by
        have := beq_iff_eq.mp hqy
        rw [cidN_eq_zero] at this
        exact this
      exact id_match_unique h.2.1 y hy s0 hs0 (by omega)
    have heqI : strs.id_root.eraseP (fun s => cidN fs.id s.id == 0) =
        strs.id_root.erase s0 := eraseP_eq_erase_of_unique hs0 hpI huI
    refine ⟨rfl, ?_, ?_, ?_, ?_⟩
    · show (strs.text_root.eraseP (fun s => ctextO (some t) s.text == 0)).length + 1 = _
      rw [heqT, List.length_erase_of_mem hmem]
      have := List.length_pos_of_mem hmem
      omega
    · show (strs.id_root.eraseP (fun s => cidN fs.id s.id == 0)).length + 1 = _
      rw [heqI, List.length_erase_of_mem hs0]
      have := List.length_pos_of_mem hs0
      omega
    · apply find_by_text_none
      · intro s hs
        exact hall s ((List.eraseP_sublist _).subset hs)
      · intro s hs hc
        have hsl : s ∈ strs.text_root := (List.eraseP_sublist _).subset hs
        have hsfs : s = fs := huT s hsl (by simp [hc, ctextO_some_some, strcmp_self])
        subst hsfs
        rw [heqT] at hs
        exact (nodup_text_root h).not_mem_erase hs
    · apply find_by_id_none
      intro s hs hc
      have hsl : s ∈ strs.id_root := (List.eraseP_sublist _).subset hs
      have hss0 : s = s0 := huI s hsl (by simp [hc, cidN_eq_zero])
      subst hss0
      rw [heqI] at hs
      exact (nodup_id_root h).not_mem_erase hs

/-- C4 witness: removing the one-byte text 97 from the concrete one-entry
table reports Found and afterwards both lookups come back absent; removing
it from the empty table reports Failed and changes nothing. -/
theorem libstrings_c4_witness :
    WF (⟨1, [⟨0, 0, some [97]⟩], [⟨1, 0, some [97]⟩]⟩ : strings) ∧
    (strings_remove ⟨1, [⟨0, 0, some [97]⟩], [⟨1, 0, some [97]⟩]⟩ (some [97])).1 =
      string_found ∧
    strings_find_by_text
      (strings_remove ⟨1, [⟨0, 0, some [97]⟩], [⟨1, 0, some [97]⟩]⟩ (some [97])).2
      (some [97]) = none ∧
    strings_remove strings_empty (some [97]) = (string_failed, strings_empty) := by
  refine ⟨by decide, ?_, ?_, ?_⟩
  · exact ((libstrings_c4 _ [97] (by decide) (by decide)).2 ⟨1, 0, some [97]⟩
      (by decide) rfl).1
  · exact ((libstrings_c4 _ [97] (by decide) (by decide)).2 ⟨1, 0, some [97]⟩
      (by decide) rfl).2.2.2.1
  · exact (libstrings_c4 strings_empty [97] (by decide) (by decide)).1 (by decide)

/-- C6 (corrected claim): duplicate re-interns each source value through the
ordinary add path while walking the source id index in ascending id order,
so the copy holds the same set of distinct text values but with identifiers
reassigned densely as 0..n-1 in ascending source-id order — they coincide
with the source's ids exactly when those were already dense from 0.  Each
value is reachable in the copy by text (as a record with reference count 1)
and by its new id (as the ref_cnt-0 duplicate), regardless of its reference
count in the source. -/
theorem libstrings_c6_amended : ∀ strs : strings, WF strs →
    (∀ s ∈ strs.id_root, s.text ≠ none) →
    strings_dup strs = strings_run_add_texts (id_texts strs) ∧
    (strings_dup strs).text_root.length = strs.id_root.length ∧
    (∀ t', (∃ s ∈ (strings_dup strs).text_root, s.text = some t') ↔
      (∃ s ∈ strs.id_root, s.text = some t')) ∧
    (∀ k, ∀ hk : k < (id_texts strs).length,
      strings_find_by_text (strings_dup strs) (some ((id_texts strs).get ⟨k, hk⟩)) =
        some ⟨1, k, some ((id_texts strs).get ⟨k, hk⟩)⟩ ∧
      strings_find_by_id (strings_dup strs) k =
        some ⟨0, k, some ((id_texts strs).get ⟨k, hk⟩)⟩) := by
  intro strs h hall
  have hdup := strings_dup_eq hall
  have hnd := nodup_id_texts h hall
  obtain ⟨hwf, hlast, hlen, hset, hall', hlook⟩ := run_add_texts_spec (id_texts strs) hnd
  refine ⟨hdup, ?_, ?_, ?_⟩
  · rw [hdup, hlen, id_texts_length hall]
  · intro t'
    rw [hdup, hset t']
    constructor
    · intro ht'
      exact List.mem_filterMap.mp ht'
    · intro hex
      exact List.mem_filterMap.mpr hex
  · intro k hk
    rw [hdup]
    exact hlook k hk

/-- C6 counterexample: intern 97, 98, 99 (ids 0, 1, 2), remove 98, then
duplicate.  The source id index still holds id 2 for text 99, but in the
copy id 2 resolves to nothing and text 99 carries id 1, so the copy does
not have "the same ids as the source's id index"; moreover the id-index
record of the copy for id 0 carries reference count 0, not 1. -/
theorem libstrings_c6_counterexample :
    strings_find_by_id
        (strings_run strings_empty [strop.add ⟨0, 0, some [97]⟩, strop.add ⟨0, 0, some [98]⟩,
          strop.add ⟨0, 0, some [99]⟩, strop.remove (some [98])]) 2 =
      some ⟨0, 2, some [99]⟩ ∧
    strings_find_by_id
        (strings_dup (strings_run strings_empty [strop.add ⟨0, 0, some [97]⟩,
          strop.add ⟨0, 0, some [98]⟩, strop.add ⟨0, 0, some [99]⟩,
          strop.remove (some [98])])) 2 = none ∧
    (strings_find_by_text
        (strings_dup (strings_run strings_empty [strop.add ⟨0, 0, some [97]⟩,
          strop.add ⟨0, 0, some [98]⟩, strop.add ⟨0, 0, some [99]⟩,
          strop.remove (some [98])])) (some [99])).map (fun s => s.id) = some 1 ∧
    (strings_find_by_id
        (strings_dup (strings_run strings_empty [strop.add ⟨0, 0, some [97]⟩,
          strop.add ⟨0, 0, some [98]⟩, strop.add ⟨0, 0, some [99]⟩,
          strop.remove (some [98])])) 0).map (fun s => s.ref_cnt) = some 0 := by
  decide

/-- C6 witness: the amended statement applied to a concrete one-entry
source table. -/
theorem libstrings_c6_witness :
    WF (⟨1, [⟨0, 0, some [97]⟩], [⟨5, 0, some [97]⟩]⟩ : strings) ∧
    (strings_dup ⟨1, [⟨0, 0, some [97]⟩], [⟨5, 0, some [97]⟩]⟩).text_root.length = 1 := by
  refine ⟨by decide, ?_⟩
  exact (libstrings_c6_amended ⟨1, [⟨0, 0, some [97]⟩], [⟨5, 0, some [97]⟩]⟩
    (by decide) (by decide)).2.1

/-- C7 (corrected claim): add with a NULL text payload is not rejected as an
invalid argument.  On the empty table it interns a record with NULL text
(Found, one new entry in each index); on a non-empty table the text
comparator treats NULL as equal to anything, so the add dedup-hits an
existing record, increments its reference count (the text-index ref_cnt sum
grows by one) and reports Found with the id index and all (id, text) keys
unchanged — in no case does it report Failed or leave the table
untouched. -/
theorem libstrings_c7_amended :
    strings_add strings_empty ⟨0, 0, none⟩ =
      (string_found, ⟨1, [⟨0, 0, none⟩], [⟨1, 0, none⟩]⟩) ∧
    ∀ strs : strings, strs.text_root ≠ [] →
      (strings_add strs ⟨0, 0, none⟩).1 = string_found ∧
      (strings_add strs ⟨0, 0, none⟩).2.id_root = strs.id_root ∧
      (strings_add strs ⟨0, 0, none⟩).2.last_id = strs.last_id ∧
      ((strings_add strs ⟨0, 0, none⟩).2.text_root.map (fun s => s.ref_cnt)).sum =
        (strs.text_root.map (fun s => s.ref_cnt)).sum + 1 ∧
      (strings_add strs ⟨0, 0, none⟩).2.text_root.map skey =
        strs.text_root.map skey := by
  constructor
  · decide
  · intro strs hne
    cases hl : strs.text_root with
    | nil => exact absurd hl hne
    | cons s ss =>
      have hps : ((fun x => string_node_compare_text
          ⟨0, 0, (⟨0, 0, none⟩ : string).text⟩ x == 0) s) = true := by
        simp [ctextO_none_left]
      have hf : avl_find string_node_compare_text strs.text_root
          ⟨0, 0, (⟨0, 0, none⟩ : string).text⟩ = some s := by
        rw [hl]
        exact List.find?_cons_of_pos _ hps
      rw [strings_add_found hf]
      have hup : updateFirst (fun s' => ctextO none s'.text == 0) bumpRef (s :: ss) =
          bumpRef s :: ss := by
        simp [updateFirst, ctextO_none_left]
      refine ⟨rfl, rfl, rfl, ?_, ?_⟩
      · show ((updateFirst (fun s' => ctextO none s'.text == 0) bumpRef
            strs.text_root).map (fun x => x.ref_cnt)).sum = _
        rw [hl, hup]
        simp only [List.map_cons, List.sum_cons, bumpRef]
        omega
      · show (updateFirst (fun s' => ctextO none s'.text == 0) bumpRef
            strs.text_root).map skey = _
        rw [hl, hup]
        simp [skey_bumpRef]

/-- C7 counterexample: adding a record whose text payload is NULL to the
empty table reports Found (not Failed) and changes the table: a null-text
record is interned with id 0 in both indices. -/
theorem libstrings_c7_counterexample :
    (strings_add strings_empty ⟨0, 0, none⟩).1 = string_found ∧
    (strings_add strings_empty ⟨0, 0, none⟩).2 ≠ strings_empty ∧
    (strings_add strings_empty ⟨0, 0, none⟩).2.text_root.length = 1 := by
  decide

/-- C7 witness: a NULL-text add on a concrete non-empty table dedup-hits and
reports Found. -/
theorem libstrings_c7_witness :
    (⟨1, [⟨0, 0, some [97]⟩], [⟨1, 0, some [97]⟩]⟩ : strings).text_root ≠ [] ∧
    (strings_add ⟨1, [⟨0, 0, some [97]⟩], [⟨1, 0, some [97]⟩]⟩ ⟨0, 0, none⟩).1 =
      string_found := by
  refine ⟨by decide, ?_⟩
  exact (libstrings_c7_amended.2 ⟨1, [⟨0, 0, some [97]⟩], [⟨1, 0, some [97]⟩]⟩
    (by decide)).1
